import Mathlib

/-!
Verification of the algorithmic core of `simalign.py` (distortion filter,
iterative max matching, entropy-based null-alignment calibration) against its
natural-language specification.

Embedding conventions:
* A similarity or alignment matrix is a total function `Fin m → Fin n → ℚ`;
  the floating-point arithmetic of the source is modelled exactly over `ℚ`,
  and the entropy computations (which use the natural logarithm) over `ℝ`.
* `numpy` argmax, one-hot rows, `clip`, tiling and elementwise products are
  translated operation by operation; `scipy.stats.entropy` and
  `sklearn.preprocessing.normalize` are translated from their documented
  behaviour on the inputs this program feeds them.
* The `while` loop of `iter_max` is translated as structurally bounded
  recursion on explicit fuel `max_count + 1`, exactly the number of times the
  source loop condition `count <= max_count` can admit the body.
-/

namespace Simalign

/-- A matrix with `m` rows and `n` columns, entries in `ℚ`. -/
abbrev Mat (m n : ℕ) : Type := Fin m → Fin n → ℚ

/-- `numpy`-style `clip(x, 0.0, 1.0)`: first the lower bound, then the upper. -/
def clip01 (x : ℚ) : ℚ := min (max x 0) 1

/-- Embeds `apply_distortion` (simalign.py lines 52-61).  `pos_x[i][j] = j/(n-1)`,
`pos_yT` is the transpose of the `pos_y` array built in the source, so
`pos_yT[i][j] = i/(m-1)`; the distortion mask is `1 - (pos_x - pos_yT)^2 * ratio`
and the result is the elementwise product with the input.  The guard returns the
input unchanged when either dimension is below 2 or the ratio is zero. -/
def apply_distortion {m n : ℕ} (sim_matrix : Mat m n) (ratio : ℚ) : Mat m n :=
  if m < 2 ∨ n < 2 ∨ ratio = 0 then sim_matrix
  else
    let pos_x : Mat m n := fun _ j => ((j : ℕ) : ℚ) / ((n : ℚ) - 1)
    let pos_yT : Mat m n := fun i _ => ((i : ℕ) : ℚ) / ((m : ℚ) - 1)
    let distortion_mask : Mat m n := fun i j => 1 - (pos_x i j - pos_yT i j) ^ 2 * ratio
    fun i j => sim_matrix i j * distortion_mask i j

/-- C5: `apply_distortion` returns its input unchanged whenever `m < 2`, `n < 2`
or the ratio is `0`; otherwise every cell `(i, j)` of the output equals
`S[i,j] * (1 - r * (j/(n-1) - i/(m-1))^2)`. -/
theorem apply_distortion_cellwise {m n : ℕ} (sim_matrix : Mat m n) (ratio : ℚ)
    (i : Fin m) (j : Fin n) :
    apply_distortion sim_matrix ratio i j =
      if m < 2 ∨ n < 2 ∨ ratio = 0 then sim_matrix i j
      else sim_matrix i j *
        (1 - ratio * (((j : ℕ) : ℚ) / ((n : ℚ) - 1) - ((i : ℕ) : ℚ) / ((m : ℚ) - 1)) ^ 2) := by
  by_cases h : m < 2 ∨ n < 2 ∨ ratio = 0 <;>
    simp only [apply_distortion, if_pos, if_neg, h, if_true, if_false] <;> ring

/-! ## The iterative max matcher (`iter_max`, simalign.py lines 97-128)

The body of `def iter_max(sim_matrix, max_count=3)` never reads its parameter
`sim_matrix`: every occurrence of a similarity value in the body is the name
`sim`, which Python resolves to the module-global `sim` of the enclosing
script.  The embedding therefore separates the computation `iter_max`, a
function of the matrix the body actually reads (the ambient global), from the
call `iter_max_call`, which also receives the (ignored) `sim_matrix` argument. -/

/-- `numpy` argmax along a vector: the first index attaining the maximum. -/
def npArgmax {k : ℕ} (v : Fin (k + 1) → ℚ) : Fin (k + 1) :=
  (List.finRange (k + 1)).foldl (fun b i => if v b < v i then i else b) 0

/-- `np.eye(n)[sim.argmax(axis=1)]`: the row-wise one-hot argmax matrix. -/
def forwardOneHot {m n : ℕ} (sim : Mat (m + 1) (n + 1)) : Mat (m + 1) (n + 1) :=
  fun i j => if j = npArgmax (fun j' => sim i j') then 1 else 0

/-- `np.eye(m)[sim.argmax(axis=0)]`: the `n × m` column-wise one-hot argmax matrix. -/
def backwardOneHot {m n : ℕ} (sim : Mat (m + 1) (n + 1)) :
    Fin (n + 1) → Fin (m + 1) → ℚ :=
  fun j i => if i = npArgmax (fun i' => sim i' j) then 1 else 0

/-- `inter = forward * backward.transpose()`: the round-0 mutual-argmax matrix. -/
def inter0 {m n : ℕ} (sim : Mat (m + 1) (n + 1)) : Mat (m + 1) (n + 1) :=
  fun i j => forwardOneHot sim i j * backwardOneHot sim j i

/-- `inter.sum(1)[i]`: the row mass of the accumulator. -/
def rowMass {m n : ℕ} (inter : Mat (m + 1) (n + 1)) (i : Fin (m + 1)) : ℚ :=
  ∑ j, inter i j

/-- `inter.sum(0)[j]`: the column mass of the accumulator. -/
def colMass {m n : ℕ} (inter : Mat (m + 1) (n + 1)) (j : Fin (n + 1)) : ℚ :=
  ∑ i, inter i j

/-- `mask_x = 1.0 - np.tile(inter.sum(1)[:, np.newaxis], (1, n)).clip(0.0, 1.0)`. -/
def mask_x {m n : ℕ} (inter : Mat (m + 1) (n + 1)) : Mat (m + 1) (n + 1) :=
  fun i _ => 1 - clip01 (rowMass inter i)

/-- `mask_y = 1.0 - np.tile(inter.sum(0)[np.newaxis, :], (m, 1)).clip(0.0, 1.0)`. -/
def mask_y {m n : ℕ} (inter : Mat (m + 1) (n + 1)) : Mat (m + 1) (n + 1) :=
  fun _ j => 1 - clip01 (colMass inter j)

/-- The degenerate-round guard `mask_x.sum() < 1.0 or mask_y.sum() < 1.0`
(simalign.py line 116), which zeroes both masks for the round. -/
def degenerateRound {m n : ℕ} (inter : Mat (m + 1) (n + 1)) : Bool :=
  decide ((∑ i, ∑ j, mask_x inter i j) < 1) || decide ((∑ i, ∑ j, mask_y inter i j) < 1)

/-- `mask = ((ratio * mask_x) + (ratio * mask_y)).clip(0.0, 1.0)` with the fixed
damping ratio `0.9`, zeroed when the degenerate guard fires (`mask *= 0.0`). -/
def dampMask {m n : ℕ} (inter : Mat (m + 1) (n + 1)) : Mat (m + 1) (n + 1) :=
  fun i j =>
    if degenerateRound inter then 0
    else clip01 (9 / 10 * mask_x inter i j + 9 / 10 * mask_y inter i j)

/-- `mask_zeros = 1.0 - ((1.0 - mask_x) * (1.0 - mask_y))`, zeroed when the
degenerate guard fires (`mask_zeros *= 0.0`). -/
def zeroMask {m n : ℕ} (inter : Mat (m + 1) (n + 1)) : Mat (m + 1) (n + 1) :=
  fun i j =>
    if degenerateRound inter then 0
    else 1 - (1 - mask_x inter i j) * (1 - mask_y inter i j)

/-- `new_sim = sim * mask`: the damped similarity of a refinement round. -/
def dampedSim {m n : ℕ} (sim inter : Mat (m + 1) (n + 1)) : Mat (m + 1) (n + 1) :=
  fun i j => sim i j * dampMask inter i j

/-- One refinement round's new matches:
`fwd = np.eye(n)[new_sim.argmax(axis=1)] * mask_zeros`,
`bac = np.eye(m)[new_sim.argmax(axis=0)].transpose() * mask_zeros`,
`new_inter = fwd * bac`. -/
def newMatches {m n : ℕ} (sim inter : Mat (m + 1) (n + 1)) : Mat (m + 1) (n + 1) :=
  fun i j =>
    (forwardOneHot (dampedSim sim inter) i j * zeroMask inter i j) *
    (backwardOneHot (dampedSim sim inter) j i * zeroMask inter i j)

/-- The `while count <= max_count` loop of `iter_max`, on state
`(inter, new_inter)` and with fuel equal to the number of remaining admissible
loop entries.  Each body execution first merges (`inter = inter + new_inter`),
then computes the round's new matches and breaks at a fixed point
(`np.array_equal(inter + new_inter, inter)`). -/
def iterLoop {m n : ℕ} (sim : Mat (m + 1) (n + 1)) :
    Mat (m + 1) (n + 1) → Mat (m + 1) (n + 1) → ℕ → Mat (m + 1) (n + 1)
  | inter, _, 0 => inter
  | inter, new_inter, fuel + 1 =>
    let inter' := inter + new_inter
    let next := newMatches sim inter'
    if inter' + next = inter' then inter'
    else iterLoop sim inter' next fuel

/-- Embeds `iter_max` (simalign.py lines 97-128) as a function of the matrix
its body reads — the ambient module-global `sim` — and the round budget
`max_count`.  Small matrices (`min(m, n) <= 2`) return the round-0
intersection before the loop; otherwise the loop body can be entered at most
`max_count + 1` times (`count` runs from 0 while `count <= max_count`). -/
def iter_max {m n : ℕ} (sim : Mat (m + 1) (n + 1)) (max_count : ℕ) : Mat (m + 1) (n + 1) :=
  let inter := inter0 sim
  if min (m + 1) (n + 1) ≤ 2 then inter
  else iterLoop sim inter 0 (max_count + 1)

/-- A call `iter_max(sim_matrix, max_count)` in a scope whose module-global
`sim` holds `sim`: the body resolves the free name `sim` to the global and
never reads the parameter `sim_matrix`, so the result has the global's shape
and is computed from the global alone. -/
def iter_max_call {m n m' n' : ℕ} (sim : Mat (m + 1) (n + 1))
    (sim_matrix : Mat (m' + 1) (n' + 1)) (max_count : ℕ) : Mat (m + 1) (n + 1) :=
  iter_max sim max_count

/-- `inter = inter + new_inter` with `new_inter` recomputed from the merged
accumulator: the per-round merge step the loop of `iter_max` iterates. -/
def mergeStep {m n : ℕ} (sim inter : Mat (m + 1) (n + 1)) : Mat (m + 1) (n + 1) :=
  inter + newMatches sim inter

/-- The damping mask exactly as claim C3 words it, built from the spec text for
comparison with the source's `dampMask`: `rowSatisfied` is the row match count
clipped to `[0, 1]`, and the mask is `clip(0.9 * rowSatisfied + 0.9 * colSatisfied, 0, 1)`. -/
def claimDampMask {m n : ℕ} (inter : Mat (m + 1) (n + 1)) : Mat (m + 1) (n + 1) :=
  fun i j => clip01 (9 / 10 * clip01 (rowMass inter i) + 9 / 10 * clip01 (colMass inter j))

/-- The damped similarity as claim C3 words it: `S` times `1 - dampingMask`. -/
def claimDampedSim {m n : ℕ} (sim inter : Mat (m + 1) (n + 1)) : Mat (m + 1) (n + 1) :=
  fun i j => sim i j * (1 - claimDampMask inter i j)

/-- The hard zero-mask as claim C3 words it:
`1 - (1 - rowSatisfied) * (1 - colSatisfied)`. -/
def claimZeroMask {m n : ℕ} (inter : Mat (m + 1) (n + 1)) : Mat (m + 1) (n + 1) :=
  fun i j => 1 - (1 - clip01 (rowMass inter i)) * (1 - clip01 (colMass inter j))

/-- A concrete 3×3 similarity matrix; its round-0 intersection is
`{(0,0), (2,2)}`, so entering round 1 row 1 and column 1 are unsatisfied. -/
def S0 : Mat 3 3 := ![![9, 1, 0], ![8, 2, 0], ![0, 0, 5]]

/-- The 2×3 end-to-end example of the spec (§8). -/
def S23 : Mat 2 3 := ![![9 / 10, 1 / 10, 0], ![0, 1 / 5, 4 / 5]]

lemma clip01_nonneg (x : ℚ) : 0 ≤ clip01 x :=
  le_min (le_max_right x 0) zero_le_one

lemma clip01_le_one (x : ℚ) : clip01 x ≤ 1 :=
  min_le_right _ _

lemma finRange_two : List.finRange (1 + 1) = [0, 1] := by decide

lemma finRange_three : List.finRange (2 + 1) = [0, 1, 2] := by decide

/-- Round 0 on `S0`: the mutual argmaxes are the cells `(0,0)` and `(2,2)`. -/
lemma inter0_S0 : inter0 S0 = ![![1, 0, 0], ![0, 0, 0], ![0, 0, 1]] := by
  funext i j
  fin_cases i <;> fin_cases j <;>
    simp only [inter0, forwardOneHot, backwardOneHot, npArgmax, finRange_three,
      List.foldl_cons, List.foldl_nil] <;>
    norm_num [S0] <;> decide

lemma rowMass_inter0_S0 : ∀ i, rowMass (inter0 S0) i = ![1, 0, 1] i := by
  intro i
  rw [inter0_S0]
  fin_cases i <;>
    simp only [rowMass, Fin.sum_univ_succ, Fin.sum_univ_zero,
      Matrix.cons_val_zero, Matrix.cons_val_succ] <;>
    norm_num

lemma colMass_inter0_S0 : ∀ j, colMass (inter0 S0) j = ![1, 0, 1] j := by
  intro j
  rw [inter0_S0]
  fin_cases j <;>
    simp only [colMass, Fin.sum_univ_succ, Fin.sum_univ_zero,
      Matrix.cons_val_zero, Matrix.cons_val_succ] <;>
    norm_num

/-- Entering round 1 on `S0`, row 1 and column 1 are still unsatisfied, so the
degenerate-round guard does not fire. -/
lemma degenerate_inter0_S0 : degenerateRound (inter0 S0) = false := by
  simp only [degenerateRound, Bool.or_eq_false_iff, decide_eq_false_iff_not, not_lt]
  constructor <;>
    · simp only [mask_x, mask_y, rowMass_inter0_S0, colMass_inter0_S0,
        Fin.sum_univ_succ, Fin.sum_univ_zero, Matrix.cons_val_zero, Matrix.cons_val_succ]
      norm_num [clip01, min_def, max_def]

/-- Each admissible entry of the `while` loop merges once and either breaks at
a fixed point or recurses: the result is a bounded iterate of `mergeStep`. -/
lemma iterLoop_iterate {m n : ℕ} (sim : Mat (m + 1) (n + 1)) :
    ∀ (fuel : ℕ) (I N : Mat (m + 1) (n + 1)),
      ∃ j, j ≤ fuel ∧ iterLoop sim I N (fuel + 1) = (mergeStep sim)^[j] (I + N) ∧
        (j < fuel →
          mergeStep sim ((mergeStep sim)^[j] (I + N)) = (mergeStep sim)^[j] (I + N)) := by
  intro fuel
  induction fuel with
  | zero =>
    intro I N
    refine ⟨0, le_refl 0, ?_, fun h => absurd h (Nat.not_lt_zero 0)⟩
    simp only [iterLoop, Function.iterate_zero, id]
    split <;> rfl
  | succ fuel ih =>
    intro I N
    have hstep : iterLoop sim I N (fuel + 1 + 1) =
        (if (I + N) + newMatches sim (I + N) = I + N then I + N
          else iterLoop sim (I + N) (newMatches sim (I + N)) (fuel + 1)) := rfl
    by_cases hfix : (I + N) + newMatches sim (I + N) = I + N
    · refine ⟨0, Nat.zero_le _, ?_, fun _ => ?_⟩
      · rw [hstep, if_pos hfix]
        rfl
      · simpa [mergeStep] using hfix
    · obtain ⟨j, hj, heq, hfx⟩ := ih (I + N) (newMatches sim (I + N))
      refine ⟨j + 1, Nat.succ_le_succ hj, ?_, fun h => ?_⟩
      · rw [hstep, if_neg hfix, heq, Function.iterate_succ_apply]
        rfl
      · rw [Function.iterate_succ_apply]
        exact hfx (Nat.lt_of_succ_lt_succ h)

/-- C1 (evaluation of the source behaviour): a call of `iter_max` is a
function of the ambient module-global `sim` alone — two calls with different
`sim_matrix` arguments under the same ambient value return the same matrix,
namely `iter_max` of the ambient matrix.  This refutes the claim that the
result is determined by the `sim_matrix` parameter. -/
theorem iter_max_call_reads_only_ambient {m n m' n' m'' n'' : ℕ}
    (sim : Mat (m + 1) (n + 1)) (p : Mat (m' + 1) (n' + 1)) (q : Mat (m'' + 1) (n'' + 1))
    (max_count : ℕ) :
    iter_max_call sim p max_count = iter_max_call sim q max_count ∧
    iter_max_call sim p max_count = iter_max sim max_count :=
  ⟨rfl, rfl⟩

/-- C6: whenever `min(m, n) ≤ 2` the matcher returns exactly the round-0
intersection for every round budget, and on a 1×1 matrix every entry of the
result is 1. -/
theorem iter_max_small :
    (∀ {m n : ℕ} (sim : Mat (m + 1) (n + 1)) (max_count : ℕ),
        min (m + 1) (n + 1) ≤ 2 → iter_max sim max_count = inter0 sim) ∧
    (∀ (sim : Mat 1 1) (max_count : ℕ) (i j : Fin 1), iter_max sim max_count i j = 1) := by
  have base : ∀ {m n : ℕ} (sim : Mat (m + 1) (n + 1)) (max_count : ℕ),
      min (m + 1) (n + 1) ≤ 2 → iter_max sim max_count = inter0 sim := by
    intro m n sim max_count h
    simp only [iter_max, if_pos h]
  refine ⟨base, fun sim max_count i j => ?_⟩
  rw [base sim max_count (by decide)]
  have h1 : j = npArgmax (fun j' => sim i j') := Subsingleton.elim (α := Fin 1) _ _
  have h2 : i = npArgmax (fun i' => sim i' j) := Subsingleton.elim (α := Fin 1) _ _
  simp only [inter0, forwardOneHot, backwardOneHot]
  rw [if_pos h1, if_pos h2]
  norm_num

/-- Witness for C6 at the concrete 2×3 example of spec §8: the result is the
round-0 intersection `{(0,0), (1,2)}` for budget 7. -/
theorem iter_max_small_witness :
    min 2 3 ≤ 2 ∧ iter_max S23 7 = ![![1, 0, 0], ![0, 0, 1]] := by
  refine ⟨by decide, ?_⟩
  rw [iter_max_small.1 S23 7 (by decide)]
  funext i j
  fin_cases i <;> fin_cases j <;>
    simp only [inter0, forwardOneHot, backwardOneHot, npArgmax, finRange_two,
      finRange_three, List.foldl_cons, List.foldl_nil] <;>
    norm_num [S23] <;> decide

/-- C7: `iter_max` terminates with a result that is at most `max_count`
applications of the per-round merge step to the round-0 intersection; when the
matrix is large enough to iterate and fewer than `max_count` refinement rounds
were taken, the reached accumulator is a fixed point of the round step. -/
theorem iter_max_bounded_rounds {m n : ℕ} (sim : Mat (m + 1) (n + 1)) (max_count : ℕ) :
    ∃ j, j ≤ max_count ∧ iter_max sim max_count = (mergeStep sim)^[j] (inter0 sim) ∧
      (2 < min (m + 1) (n + 1) → j < max_count →
        mergeStep sim ((mergeStep sim)^[j] (inter0 sim)) = (mergeStep sim)^[j] (inter0 sim)) := by
  by_cases h : min (m + 1) (n + 1) ≤ 2
  · refine ⟨0, Nat.zero_le _, ?_, fun h2 => absurd h (not_le.mpr h2)⟩
    show (if min (m + 1) (n + 1) ≤ 2 then inter0 sim
      else iterLoop sim (inter0 sim) 0 (max_count + 1)) = _
    rw [if_pos h]
    rfl
  · obtain ⟨j, hj, heq, hfx⟩ := iterLoop_iterate sim max_count (inter0 sim) 0
    rw [add_zero] at heq hfx
    refine ⟨j, hj, ?_, fun _ hlt => hfx hlt⟩
    simp only [iter_max, if_neg h]
    exact heq

/-- Counterexample to C3 at `S0` in the first refinement round of `iter_max`
(accumulator `inter0 S0`, reached with `min(m, n) = 3 > 2`): the damped
similarity the source computes at cell `(1, 0)` is `8 * 0.9 = 36/5`, while the
formula of the claim gives `8 * (1 - 0.9) = 4/5`; the hard zero-mask the
source computes at cell `(0, 0)` is `0`, while the formula of the claim gives
`1`. -/
theorem iter_max_round_formulas_cex :
    2 < min 3 3 ∧
    dampedSim S0 (inter0 S0) 1 0 = 36 / 5 ∧
    claimDampedSim S0 (inter0 S0) 1 0 = 4 / 5 ∧
    zeroMask (inter0 S0) 0 0 = 0 ∧
    claimZeroMask (inter0 S0) 0 0 = 1 := by
  refine ⟨by norm_num, ?_, ?_, ?_, ?_⟩
  · simp only [dampedSim, dampMask, degenerate_inter0_S0, Bool.false_eq_true, if_false,
      mask_x, mask_y, rowMass_inter0_S0, colMass_inter0_S0]
    norm_num [clip01, min_def, max_def, S0]
  · simp only [claimDampedSim, claimDampMask, rowMass_inter0_S0, colMass_inter0_S0]
    norm_num [clip01, min_def, max_def, S0]
  · simp only [zeroMask, degenerate_inter0_S0, Bool.false_eq_true, if_false,
      mask_x, mask_y, rowMass_inter0_S0, colMass_inter0_S0]
    norm_num [clip01, min_def, max_def]
  · simp only [claimZeroMask, rowMass_inter0_S0, colMass_inter0_S0]
    norm_num [clip01, min_def, max_def]

/-- C3 as amended: writing `rowSatisfied = clip(rowMass, 0, 1)` (and likewise
for columns), a refinement round on accumulator `inter` uses the damping mask
`clip(0.9 * (1 - rowSatisfied) + 0.9 * (1 - colSatisfied), 0, 1)`, multiplies
the similarity by that mask itself (not by its complement), and uses the hard
zero-mask `1 - rowSatisfied * colSatisfied`, which blanks a cell exactly when
both its row and its column are fully satisfied; when the degenerate-round
guard fires, both masks are zero instead. -/
theorem iter_max_round_formulas {m n : ℕ} (sim inter : Mat (m + 1) (n + 1))
    (i : Fin (m + 1)) (j : Fin (n + 1)) :
    dampMask inter i j =
      (if degenerateRound inter then 0
        else clip01 (9 / 10 * (1 - clip01 (rowMass inter i)) +
          9 / 10 * (1 - clip01 (colMass inter j)))) ∧
    dampedSim sim inter i j = sim i j * dampMask inter i j ∧
    zeroMask inter i j =
      (if degenerateRound inter then 0
        else 1 - clip01 (rowMass inter i) * clip01 (colMass inter j)) ∧
    (degenerateRound inter = false →
      (zeroMask inter i j = 0 ↔
        clip01 (rowMass inter i) = 1 ∧ clip01 (colMass inter j) = 1)) := by
  refine ⟨rfl, rfl, ?_, ?_⟩
  · simp only [zeroMask, mask_x, mask_y]
    split
    · rfl
    · ring
  · intro hdeg
    have hz : zeroMask inter i j =
        1 - clip01 (rowMass inter i) * clip01 (colMass inter j) := by
      simp only [zeroMask, mask_x, mask_y, hdeg, Bool.false_eq_true, if_false]
      ring
    rw [hz]
    constructor
    · intro h
      have ha := clip01_le_one (rowMass inter i)
      have hb := clip01_le_one (colMass inter j)
      have ha0 := clip01_nonneg (rowMass inter i)
      have hb0 := clip01_nonneg (colMass inter j)
      constructor <;> nlinarith
    · rintro ⟨h1, h2⟩
      rw [h1, h2]
      ring

/-! ## Entropy scoring and null-alignment masks (simalign.py lines 64-94)

`gather_null_aligns` and `apply_percentile_null_aligns` share the same
row/column entropy computation: L1-normalize the similarity matrix along an
axis (`sklearn.preprocessing.normalize`, which leaves rows of zero norm
unchanged), apply `scipy.stats.entropy` (which renormalizes by the plain sum
and adds `entr(p) = -p * log p` termwise), and divide by the logarithm of the
opposite dimension.  The entries stay in `ℚ` up to normalization; entropies
live in `ℝ`.  Two deviations of the model, both outside every input this
program produces and every claim checked here: `scipy` returns `-inf`/`nan`
on negative entries or zero-sum distributions, which `ℝ` cannot represent —
the model returns `0` there (division by zero is `0` in Lean, and `entr` is
`0` off the positive axis). -/

/-- `normalize(sim_matrix, axis=1, norm='l1')`: divide each row by its L1
norm; rows of norm zero are left unchanged. -/
def norm_x {m n : ℕ} (sim_matrix : Mat m n) : Mat m n :=
  fun i j =>
    if (∑ j', |sim_matrix i j'|) = 0 then sim_matrix i j
    else sim_matrix i j / ∑ j', |sim_matrix i j'|

/-- `normalize(sim_matrix, axis=0, norm='l1')`: divide each column by its L1
norm; columns of norm zero are left unchanged. -/
def norm_y {m n : ℕ} (sim_matrix : Mat m n) : Mat m n :=
  fun i j =>
    if (∑ i', |sim_matrix i' j|) = 0 then sim_matrix i j
    else sim_matrix i j / ∑ i', |sim_matrix i' j|

/-- `scipy.special.entr` on the positive axis: `-p * log p`, and `0` at `0`. -/
noncomputable def entr (x : ℝ) : ℝ := if 0 < x then -(x * Real.log x) else 0

/-- `scipy.stats.entropy(p)`: renormalize by the sum, then add `entr` termwise. -/
noncomputable def scipyEntropy {k : ℕ} (p : Fin k → ℚ) : ℝ :=
  ∑ i, entr ((p i : ℝ) / ((∑ i', p i' : ℚ) : ℝ))

/-- `entropy_x[i] = entropy(norm_x[i, :]) / np.log(shape[1])`. -/
noncomputable def entropy_x {m n : ℕ} (sim_matrix : Mat m n) (i : Fin m) : ℝ :=
  scipyEntropy (fun j => norm_x sim_matrix i j) / Real.log n

/-- `entropy_y[j] = entropy(norm_y[:, j]) / np.log(shape[0])`. -/
noncomputable def entropy_y {m n : ℕ} (sim_matrix : Mat m n) (j : Fin n) : ℝ :=
  scipyEntropy (fun i => norm_y sim_matrix i j) / Real.log m

/-- `np.tile(entropy_x[:, np.newaxis], (1, shape[1]))`. -/
noncomputable def ent_mask_x {m n : ℕ} (sim_matrix : Mat m n) : Fin m → Fin n → ℝ :=
  fun i _ => entropy_x sim_matrix i

/-- `np.tile(entropy_y, (shape[0], 1))`. -/
noncomputable def ent_mask_y {m n : ℕ} (sim_matrix : Mat m n) : Fin m → Fin n → ℝ :=
  fun _ j => entropy_y sim_matrix j

/-- `all_ents = np.multiply(inter_matrix, np.minimum(mask_x, mask_y))`. -/
noncomputable def all_ents {m n : ℕ} (sim_matrix inter_matrix : Mat m n) :
    Fin m → Fin n → ℝ :=
  fun i j => (inter_matrix i j : ℝ) *
    min (ent_mask_x sim_matrix i j) (ent_mask_y sim_matrix i j)

/-- Embeds `gather_null_aligns` (simalign.py lines 64-78): empty for
`min(m, n) <= 2`; otherwise the strictly positive entries of `all_ents`, read
off in the row-major order of `np.nditer`. -/
noncomputable def gather_null_aligns {m n : ℕ} (sim_matrix inter_matrix : Mat m n) :
    List ℝ :=
  if min m n ≤ 2 then []
  else ((List.finRange m).flatMap fun i =>
      (List.finRange n).map fun j => all_ents sim_matrix inter_matrix i j).filter
    fun x => decide (0 < x)

/-- Embeds `apply_percentile_null_aligns` (simalign.py lines 81-94): all ones
for `min(m, n) <= 2`; otherwise `np.where(np.minimum(mask_x, mask_y) > ratio, 0.0, 1.0)`. -/
noncomputable def apply_percentile_null_aligns {m n : ℕ} (sim_matrix : Mat m n)
    (ratio : ℝ) : Mat m n :=
  if min m n ≤ 2 then fun _ _ => 1
  else fun i j =>
    if min (ent_mask_x sim_matrix i j) (ent_mask_y sim_matrix i j) > ratio then 0 else 1

/-- A 3×3 identity similarity matrix: every row and column normalizes to a
one-hot distribution, whose Shannon entropy is zero. -/
def idMat3 : Mat 3 3 := fun i j => if i = j then 1 else 0

lemma entr_one : entr 1 = 0 := by
  simp [entr, Real.log_one]

lemma entr_zero : entr 0 = 0 := by
  simp [entr]

lemma norm_x_idMat3 : norm_x idMat3 = idMat3 := by
  funext i j
  fin_cases i <;> fin_cases j <;>
    simp +decide [norm_x, idMat3, Fin.sum_univ_succ]

lemma norm_y_idMat3 : norm_y idMat3 = idMat3 := by
  funext i j
  fin_cases i <;> fin_cases j <;>
    simp +decide [norm_y, idMat3, Fin.sum_univ_succ]

lemma rowsum_idMat3 : ∀ i : Fin 3, (∑ j, idMat3 i j) = 1 := by
  intro i
  fin_cases i <;> simp +decide [idMat3, Fin.sum_univ_succ]

lemma colsum_idMat3 : ∀ j : Fin 3, (∑ i, idMat3 i j) = 1 := by
  intro j
  fin_cases j <;> simp +decide [idMat3, Fin.sum_univ_succ]

lemma entropy_x_idMat3 : ∀ i, entropy_x idMat3 i = 0 := by
  intro i
  rw [entropy_x, scipyEntropy]
  simp only [norm_x_idMat3, rowsum_idMat3]
  fin_cases i <;>
    · simp +decide only [Fin.sum_univ_succ, Fin.sum_univ_zero, idMat3, Rat.cast_one,
        Rat.cast_zero, div_one, entr_one, entr_zero]
      simp [entr_one, entr_zero]

lemma entropy_y_idMat3 : ∀ j, entropy_y idMat3 j = 0 := by
  intro j
  rw [entropy_y, scipyEntropy]
  simp only [norm_y_idMat3, colsum_idMat3]
  fin_cases j <;>
    · simp +decide only [Fin.sum_univ_succ, Fin.sum_univ_zero, idMat3, Rat.cast_one,
        Rat.cast_zero, div_one, entr_one, entr_zero]
      simp [entr_one, entr_zero]

/-- Counterexample to C4: on the 3×3 identity matrix (as both similarity and
candidate alignment, with `min(m, n) = 3 > 2`) the cell `(0, 0)` has a
positive alignment weight, yet `gather_null_aligns` emits nothing, because
every one-hot row and column has entropy `0` and the source keeps only
strictly positive products.  So the collection does not hold one scalar per
cell with `A[i,j] > 0`. -/
theorem gather_null_aligns_cex :
    gather_null_aligns idMat3 idMat3 = [] ∧ (0 : ℚ) < idMat3 0 0 ∧ 2 < min 3 3 := by
  refine ⟨?_, by norm_num [idMat3], by norm_num⟩
  rw [gather_null_aligns, if_neg (by norm_num)]
  rw [List.filter_eq_nil_iff]
  intro x hx
  rw [List.mem_flatMap] at hx
  obtain ⟨i, -, hx⟩ := hx
  rw [List.mem_map] at hx
  obtain ⟨j, -, rfl⟩ := hx
  simp [all_ents, ent_mask_x, ent_mask_y, entropy_x_idMat3, entropy_y_idMat3]

/-- C4 as amended: for `min(m, n) ≤ 2` the collection is empty; otherwise it
holds, in row-major order, exactly the cells whose product
`A[i,j] * min(rowEntropy[i], colEntropy[j])` is strictly positive — each
emitted scalar equal to that product — and in particular every emitted scalar
is strictly positive, while a cell with `A[i,j] > 0` whose entropy score is
zero is dropped. -/
theorem gather_null_aligns_amended {m n : ℕ} (sim_matrix inter_matrix : Mat m n) :
    gather_null_aligns sim_matrix inter_matrix =
      (if min m n ≤ 2 then []
        else ((List.finRange m).flatMap fun i =>
            (List.finRange n).map fun j =>
              (inter_matrix i j : ℝ) *
                min (entropy_x sim_matrix i) (entropy_y sim_matrix j)).filter
          fun x => decide (0 < x)) ∧
    ∀ x ∈ gather_null_aligns sim_matrix inter_matrix, 0 < x := by
  constructor
  · rfl
  · intro x hx
    rw [gather_null_aligns] at hx
    by_cases h : min m n ≤ 2
    · rw [if_pos h] at hx
      exact absurd hx (List.not_mem_nil x)
    · rw [if_neg h, List.mem_filter] at hx
      exact of_decide_eq_true hx.2

/-- C8: the mask is all ones whenever `min(m, n) ≤ 2`, for any threshold;
otherwise the entry at `(i, j)` is `0` exactly when
`min(rowEntropy[i], colEntropy[j])` exceeds the threshold and `1` otherwise,
with the same entropy computation as the scoring pass. -/
theorem apply_percentile_cellwise {m n : ℕ} (sim_matrix : Mat m n) (ratio : ℝ)
    (i : Fin m) (j : Fin n) :
    apply_percentile_null_aligns sim_matrix ratio i j =
      if min m n ≤ 2 then 1
      else if ratio < min (entropy_x sim_matrix i) (entropy_y sim_matrix j) then 0
        else 1 := by
  by_cases h : min m n ≤ 2 <;>
    simp only [apply_percentile_null_aligns, ent_mask_x, ent_mask_y, gt_iff_lt,
      if_pos, if_neg, h, if_true, if_false]

/-! ## Threshold calibration and the corpus pipeline (simalign.py lines 207-303)

The script guards both the calibration pass (line 207) and the mask
application (lines 293, 300) by `args.null_align < 1.0`.  The per-method
threshold is `sorted(entropies[m])[int(args.null_align * len(entropies[m]))]`
(line 250); indexing past the end of the sorted list raises `IndexError`,
which the embedding models as `none`. -/

/-- Python `int()` on a rational: truncation toward zero. -/
def pyInt (q : ℚ) : ℤ := if q < 0 then ⌈q⌉ else ⌊q⌋

/-- `sorted(pool)`: ascending stable sort of the pooled entropy scores. -/
noncomputable def sortedPool (pool : List ℝ) : List ℝ :=
  pool.insertionSort (· ≤ ·)

/-- Embeds the per-method threshold selection
`sorted(entropies[m])[int(args.null_align * len(entropies[m]))]`
(simalign.py line 250).  `none` models the `IndexError` raised for an
out-of-range position, in the regime `0 ≤ k` of the program (Python would
additionally wrap a negative position). -/
noncomputable def null_thresh (k : ℚ) (pool : List ℝ) : Option ℝ :=
  (sortedPool pool).get? (pyInt (k * pool.length)).toNat

/-- C2 (what the source does at the failing input): with an empty pool the
selection indexes position `int(k * 0) = 0` of an empty sorted list, which is
out of range — an `IndexError` — instead of producing a threshold that
disables filtering. -/
theorem null_thresh_empty_pool (k : ℚ) : null_thresh k [] = none := rfl

/-- C10: for a non-empty pool of length `L` and `0 ≤ k < 1`, the rank
`int(k * L)` lies within `[0, L - 1]`, and the lookup in the sorted pool
therefore succeeds. -/
theorem null_thresh_rank_in_bounds (k : ℚ) (pool : List ℝ)
    (h0 : 0 ≤ k) (h1 : k < 1) (hp : pool ≠ []) :
    0 ≤ pyInt (k * pool.length) ∧
    (pyInt (k * pool.length)).toNat < pool.length ∧
    (null_thresh k pool).isSome := by
  have hL : 0 < pool.length := List.length_pos.mpr hp
  have hL' : (0 : ℚ) < (pool.length : ℚ) := by exact_mod_cast hL
  have hnonneg : 0 ≤ k * (pool.length : ℚ) := mul_nonneg h0 (le_of_lt hL')
  have hpy : pyInt (k * pool.length) = ⌊k * (pool.length : ℚ)⌋ :=
    if_neg (not_lt.mpr hnonneg)
  have hge : 0 ≤ ⌊k * (pool.length : ℚ)⌋ := Int.floor_nonneg.mpr hnonneg
  have hlt : ⌊k * (pool.length : ℚ)⌋ < (pool.length : ℤ) := by
    rw [Int.floor_lt]
    push_cast
    calc k * (pool.length : ℚ) < 1 * (pool.length : ℚ) :=
          mul_lt_mul_of_pos_right h1 hL'
    _ = (pool.length : ℚ) := one_mul _
  have htoNat : (pyInt (k * pool.length)).toNat < pool.length := by
    rw [hpy]
    omega
  refine ⟨hpy ▸ hge, htoNat, ?_⟩
  have hne : (sortedPool pool).get? (pyInt (k * pool.length)).toNat ≠ none := by
    intro hnone
    rw [List.get?_eq_none, sortedPool, List.length_insertionSort] at hnone
    omega
  rw [null_thresh]
  exact Option.isSome_iff_ne_none.mpr hne

/-- Witness for C10 at `k = 1/2` and the one-element pool `[0]`: the rank is
`0 < 1` and the lookup succeeds. -/
theorem null_thresh_rank_in_bounds_witness :
    0 ≤ pyInt ((1 / 2 : ℚ) * (([(0 : ℝ)] : List ℝ).length : ℚ)) ∧
    (pyInt ((1 / 2 : ℚ) * (([(0 : ℝ)] : List ℝ).length : ℚ))).toNat <
      ([(0 : ℝ)] : List ℝ).length ∧
    (null_thresh (1 / 2) [(0 : ℝ)]).isSome :=
  null_thresh_rank_in_bounds (1 / 2) [0] (by norm_num) (by norm_num) (by simp)

/-- One sentence pair of the corpus: its (pre-distortion) similarity matrix. -/
structure Sent where
  m : ℕ
  n : ℕ
  sim : Mat (m + 1) (n + 1)

/-- The five per-sentence alignment matrices the script produces
(`all_mats["fwd"/"rev"/"inter"/"mwmf"/"itermax"]`). -/
structure SentMats (m n : ℕ) where
  fwd : Mat (m + 1) (n + 1)
  rev : Mat (m + 1) (n + 1)
  inter : Mat (m + 1) (n + 1)
  mwmf : Mat (m + 1) (n + 1)
  itermax : Mat (m + 1) (n + 1)

/-- The external base matchers (`utils.bertalign.get_alignment_matrix`,
`utils.bertalign.symmetrize`, the max-weight matcher): black boxes supplied by
collaborators outside this repository (spec §6), kept abstract. -/
structure BaseMatcher where
  forwardMat : ∀ m n : ℕ, Mat (m + 1) (n + 1) → Mat (m + 1) (n + 1)
  backwardMat : ∀ m n : ℕ, Mat (m + 1) (n + 1) → Mat (m + 1) (n + 1)
  symmetrize : ∀ m n : ℕ, Mat (m + 1) (n + 1) → Mat (m + 1) (n + 1) → Mat (m + 1) (n + 1)
  mwmf : ∀ m n : ℕ, Mat (m + 1) (n + 1) → Mat (m + 1) (n + 1)

/-- The matrices one sentence gets in either phase (simalign.py lines 239-246
and 291-299): distortion-adjust the similarity, then `fwd`/`rev` from the
external matcher, `inter` their symmetrization, `mwmf` external, and
`itermax = iter_max(sim, 1)` — the call reads the freshly assigned global
`sim`, which at this call site is the distortion-adjusted matrix. -/
def baseMats (B : BaseMatcher) (d : ℚ) (s : Sent) : SentMats s.m s.n :=
  let sim' := apply_distortion s.sim d
  { fwd := B.forwardMat s.m s.n sim'
    rev := B.backwardMat s.m s.n sim'
    inter := B.symmetrize s.m s.n (B.forwardMat s.m s.n sim') (B.backwardMat s.m s.n sim')
    mwmf := B.mwmf s.m s.n sim'
    itermax := iter_max sim' 1 }

/-- The per-method calibration pools (`entropies`), for the default matching
methods `m`, `a`, `i` = `mwmf`, `inter`, `itermax`. -/
structure Pools where
  inter : List ℝ
  mwmf : List ℝ
  itermax : List ℝ

/-- Phase 1 (simalign.py lines 207-249, entered only when
`args.null_align < 1.0`): per method, pool the entropy scores of its candidate
matrices over the whole corpus. -/
noncomputable def phase1 (B : BaseMatcher) (d : ℚ) (corpus : List Sent) : Pools where
  inter := corpus.flatMap fun s =>
    gather_null_aligns (apply_distortion s.sim d) (baseMats B d s).inter
  mwmf := corpus.flatMap fun s =>
    gather_null_aligns (apply_distortion s.sim d) (baseMats B d s).mwmf
  itermax := corpus.flatMap fun s =>
    gather_null_aligns (apply_distortion s.sim d) (baseMats B d s).itermax

/-- The frozen per-method thresholds of phase 2. -/
structure Thresh where
  inter : ℝ
  mwmf : ℝ
  itermax : ℝ

/-- Phase 2 on one sentence with masking (simalign.py lines 293-303): build
each method's mask from the distortion-adjusted similarity and its frozen
threshold, and multiply it into `inter`, `mwmf` and `itermax` (`fwd` and
`rev` are never masked). -/
noncomputable def phase2Sent (B : BaseMatcher) (d : ℚ) (T : Thresh) (s : Sent) :
    SentMats s.m s.n :=
  let sim' := apply_distortion s.sim d
  let mats := baseMats B d s
  { mats with
    inter := fun i j => mats.inter i j * apply_percentile_null_aligns sim' T.inter i j
    mwmf := fun i j => mats.mwmf i j * apply_percentile_null_aligns sim' T.mwmf i j
    itermax := fun i j => mats.itermax i j * apply_percentile_null_aligns sim' T.itermax i j }

/-- A sentence's output matrices together with its shape. -/
abbrev OutMats : Type := (p : ℕ × ℕ) × SentMats p.1 p.2

/-- The corpus run (simalign.py lines 207-303): when `k < 1.0`, pool scores
over the corpus, freeze the three per-method thresholds (failing — `none` —
when a lookup is out of range) and re-traverse the corpus masking each
sentence; otherwise neither the calibration pass nor any masking happens and
every sentence keeps its base matrices. -/
noncomputable def runCorpus (B : BaseMatcher) (d k : ℚ) (corpus : List Sent) :
    Option (List OutMats) :=
  if k < 1 then
    let P := phase1 B d corpus
    match null_thresh k P.inter, null_thresh k P.mwmf, null_thresh k P.itermax with
    | some tI, some tM, some tX =>
      some (corpus.map fun s => ⟨(s.m, s.n), phase2Sent B d ⟨tI, tM, tX⟩ s⟩)
    | _, _, _ => none
  else
    some (corpus.map fun s => ⟨(s.m, s.n), baseMats B d s⟩)

/-- Modelled from the spec: a run "with filtering disabled" — no calibration
pass, no masks built or applied, every method's matrices pass through
unchanged (spec §4.3).  The spec describes this configuration in words; it is
embedded here as the comparison point of the refinement claim C9. -/
def runFilterDisabled (B : BaseMatcher) (d : ℚ) (corpus : List Sent) : List OutMats :=
  corpus.map fun s => ⟨(s.m, s.n), baseMats B d s⟩

/-- C9: with keep-fraction `k = 1.0` both `null_align < 1.0` guards are false,
so the run equals the filter-disabled run on every corpus: no calibration, no
masking, identical final matrices. -/
theorem run_keep_one_matches_disabled (B : BaseMatcher) (d : ℚ) (corpus : List Sent) :
    runCorpus B d 1 corpus = some (runFilterDisabled B d corpus) := by
  simp only [runCorpus, lt_self_iff_false, if_false]
  rfl

end Simalign
